import Mathlib

/-!
# Verification of the trackr-mobile derived-metrics engine

Shallow embedding of the pure calculation layer of the trackr-mobile
application (finance analytics, health metrics, habit streak engine) and
proofs about it.  Amounts and measurements are modelled as rationals,
calendar dates either as explicit year/month/day records (finance window
resolution) or as integer day numbers (habit and weight entries, which the
source stores at day granularity).
-/

namespace Trackr

/-! ## Calendar dates

The finance layer resolves month windows with `startOfMonth`/`endOfMonth`
from the date library; dates are compared chronologically, which for
year/month/day records is the lexicographic order. -/

/-- A calendar date at day granularity. -/
structure CDate where
  year : Int
  month : Int
  day : Int
deriving DecidableEq, Repr

/-- Chronological (lexicographic) order on calendar dates, as a Boolean. -/
def CDate.leb (a b : CDate) : Bool :=
  if a.year = b.year then
    if a.month = b.month then decide (a.day ≤ b.day)
    else decide (a.month < b.month)
  else decide (a.year < b.year)

/-- Gregorian leap-year rule. -/
def isLeapYear (y : Int) : Bool :=
  y % 4 = 0 && (y % 100 ≠ 0 || y % 400 = 0)

/-- Number of days in a month of a given year. -/
def daysInMonth (y m : Int) : Int :=
  if m = 2 then (if isLeapYear y then 29 else 28)
  else if m = 4 ∨ m = 6 ∨ m = 9 ∨ m = 11 then 30
  else 31

/-- Model of `startOfMonth` of the date library: first day of the date's month. -/
def startOfMonth (d : CDate) : CDate :=
  ⟨d.year, d.month, 1⟩

/-- Model of `endOfMonth` of the date library: last day of the date's month. -/
def endOfMonth (d : CDate) : CDate :=
  ⟨d.year, d.month, daysInMonth d.year d.month⟩

/-- Day number of a calendar date (days since 1970-01-01, civil-calendar
algorithm); used to compute the day of the week. -/
def CDate.toDays (d : CDate) : Int :=
  let y := if d.month ≤ 2 then d.year - 1 else d.year
  let era := y / 400
  let yoe := y - era * 400
  let mp := (d.month + 9) % 12
  let doy := (153 * mp + 2) / 5 + d.day - 1
  let doe := yoe * 365 + yoe / 4 - yoe / 100 + doy
  era * 146097 + doe - 719468

/-- Day of the week (0 = Sunday … 6 = Saturday), as JavaScript `getDay()`. -/
def CDate.dayOfWeek (d : CDate) : Int :=
  (d.toDays + 4) % 7

/-! ## Finance: budget progress -/

/-- Function `calculateBudgetProgress` from the calculations service:
returns 0 when the budget is 0, otherwise the raw (unclamped) percentage. -/
def calculateBudgetProgress (spent budget : ℚ) : ℚ :=
  if budget = 0 then 0 else spent / budget * 100

/-- Result record of `getBudgetProgress`. -/
structure BudgetProgress where
  spent : ℚ
  percentage : ℚ
  remaining : ℚ
deriving DecidableEq, Repr

/-- Function `getBudgetProgress` from the budgets screen, parametrised by
the budget amount and the spent total that the screen obtains from
`getMonthlySpending`. -/
def getBudgetProgress (amount spent : ℚ) : BudgetProgress :=
  let percentage := if 0 < amount then spent / amount * 100 else 0
  { spent := spent
    percentage := min percentage 100
    remaining := max (amount - spent) 0 }

/-! ## Health: Navy body-fat formula

`Math.log10` is floating point in the source; the embedding is parametrised
by an arbitrary rational approximation of `log10`, which the branch the
claims are about never evaluates. -/

inductive Gender where
  | male
  | female
deriving DecidableEq, Repr

inductive MUnit where
  | metric
  | imperial
deriving DecidableEq, Repr

/-- Function `calculateBodyFat` from the calculations service (Navy
formula).  The hip argument is optional; JavaScript truthiness makes both
`undefined` and `0` produce `hipCm = 0`, and the female branch returns the
sentinel `0` when `hipCm` is falsy. -/
def calculateBodyFat (log10 : ℚ → ℚ) (gender : Gender)
    (waist neck height : ℚ) (hip : Option ℚ) (unit : MUnit) : ℚ :=
  let waistCm := if unit = MUnit.metric then waist else waist * 2.54
  let neckCm := if unit = MUnit.metric then neck else neck * 2.54
  let heightCm := if unit = MUnit.metric then height else height * 2.54
  let hipCm : ℚ :=
    match hip with
    | some hv => if hv = 0 then 0 else if unit = MUnit.metric then hv else hv * 2.54
    | none => 0
  if gender = Gender.male then
    495 / (1.0324 - 0.19077 * log10 (waistCm - neckCm) + 0.15456 * log10 heightCm) - 450
  else
    if hipCm = 0 then 0
    else
      495 / (1.29579 - 0.35004 * log10 (waistCm + hipCm - neckCm) + 0.22100 * log10 heightCm) - 450

/-! ## Finance: transactions, monthly balance, category spending -/

inductive TType where
  | income
  | expense
deriving DecidableEq, Repr

/-- A transaction record, with the fields the analytics read. -/
structure Transaction where
  amount : ℚ
  category : String
  ttype : TType
  date : CDate
deriving DecidableEq, Repr

/-- Membership of a transaction's date in the current month window,
`t.date >= startOfMonth(now) && t.date <= endOfMonth(now)`. -/
def inCurrentMonth (now : CDate) (t : Transaction) : Bool :=
  (startOfMonth now).leb t.date && t.date.leb (endOfMonth now)

/-- Result record of `getMonthlyBalance`. -/
structure Balance where
  income : ℚ
  expenses : ℚ
  balance : ℚ
deriving DecidableEq, Repr

/-- Function `getMonthlyBalance` from the finance context: filter the
transactions to the current month, sum incomes and expenses separately with
`reduce`, and return `balance = income - expenses`. -/
def getMonthlyBalance (now : CDate) (transactions : List Transaction) : Balance :=
  let monthTransactions := transactions.filter (fun t => inCurrentMonth now t)
  let income := (monthTransactions.filter (fun t => t.ttype == TType.income)).foldl
    (fun sum t => sum + t.amount) 0
  let expenses := (monthTransactions.filter (fun t => t.ttype == TType.expense)).foldl
    (fun sum t => sum + t.amount) 0
  { income := income, expenses := expenses, balance := income - expenses }

/-- Sum of the amounts of a list of transactions (specification side). -/
def sumAmounts (l : List Transaction) : ℚ :=
  (l.map (fun t => t.amount)).sum

inductive Period where
  | month
  | week
deriving DecidableEq, Repr

/-- Keyed update `acc[c] = (acc[c] || 0) + a` on a JavaScript object,
modelled as an association list with unique keys: the entry with key `c`
gets `a` added if present, otherwise `(c, a)` is appended preserving
insertion order. -/
def addSpend : List (String × ℚ) → String → ℚ → List (String × ℚ)
  | [], c, a => [(c, a)]
  | p :: rest, c, a =>
    if p.1 == c then (p.1, p.2 + a) :: rest else p :: addSpend rest c a

/-- Function `getCategorySpending` from the finance context.  For period
`month` the window is the current month; for period `week` the source sets
both `start` and `end` to `new Date()`, i.e. the window is `[now, now]`.
Only expense transactions inside the window are accumulated, by category. -/
def getCategorySpending (now : CDate) (period : Period)
    (ts : List Transaction) : List (String × ℚ) :=
  let start := if period = Period.month then startOfMonth now else now
  let stop := if period = Period.month then endOfMonth now else now
  let periodTransactions := ts.filter (fun t =>
    t.ttype == TType.expense && start.leb t.date && t.date.leb stop)
  periodTransactions.foldl (fun acc t => addSpend acc t.category t.amount) []

/-- Lookup of a category in the result object of `getCategorySpending`;
`none` models the key being absent. -/
def lookupSpend (l : List (String × ℚ)) (c : String) : Option ℚ :=
  (l.find? (fun p => p.1 == c)).map (fun p => p.2)

/-- Week window as the specification's words describe it: the current
Sunday-start week, from `today - today.dayOfWeek` through six days later. -/
def specWeekWindowMember (now d : CDate) : Bool :=
  let ws := now.toDays - now.dayOfWeek
  decide (ws ≤ d.toDays) && decide (d.toDays ≤ ws + 6)

/-! ## Habits: dashboard completion percentage -/

/-- View of one habit on the habits dashboard for today, as produced by
`getTodaysHabits`: the habit's target and the count logged today. -/
structure TodayHabit where
  targetCount : ℕ
  count : ℕ
deriving DecidableEq, Repr

/-- Per-habit entry of `habitProgressList` on the habits dashboard:
`(h.count / h.habit.targetCount) * 100`, with no clamping. -/
def habitProgress (h : TodayHabit) : ℚ :=
  (h.count : ℚ) / (h.targetCount : ℚ) * 100

/-- Dashboard aggregate `completionPercentage`: the per-habit progress
values are averaged with equal weight; 0 for an empty habit list. -/
def completionPercentage (hs : List TodayHabit) : ℚ :=
  if 0 < hs.length then
    ((hs.map habitProgress).foldl (fun sum p => sum + p) 0) / (hs.length : ℚ)
  else 0

/-- Dashboard aggregate as the claim words it (specification side, for
comparison): equal-weight average of `min(count/targetCount, 1) * 100`. -/
def claimedCompletionPercentage (hs : List TodayHabit) : ℚ :=
  if 0 < hs.length then
    ((hs.map (fun h => min ((h.count : ℚ) / (h.targetCount : ℚ)) 1 * 100)).foldl
      (fun sum p => sum + p) 0) / (hs.length : ℚ)
  else 0

/-! ## Habits: streak engine -/

/-- A habit entry as the streak engine reads it: the entry's date (integer
day number, day granularity) and its completion flag. -/
structure StreakEntry where
  date : Int
  completed : Bool
deriving DecidableEq, Repr

/-- Stable insertion into a list sorted by date descending; models the
JavaScript stable `sort` with comparator `b.date - a.date`. -/
def insertByDateDesc (e : StreakEntry) : List StreakEntry → List StreakEntry
  | [] => [e]
  | x :: xs => if x.date ≤ e.date then e :: x :: xs else x :: insertByDateDesc e xs

/-- Sort entries by date in descending order (stable). -/
def sortByDateDesc (l : List StreakEntry) : List StreakEntry :=
  l.foldr insertByDateDesc []

/-- Loop of `calculateStreak` from the second element on: `prevDate` is the
date of the immediately preceding sorted entry (completed or not); only
`tempStreak` and `longestStreak` evolve, `currentStreak` is carried
through unchanged. -/
def streakLoop (prevDate : Int) (currentStreak tempStreak longestStreak : ℕ) :
    List StreakEntry → ℕ × ℕ
  | [] => (currentStreak, longestStreak)
  | e :: rest =>
    if e.completed then
      let temp2 := if prevDate - e.date = 1 then tempStreak + 1 else 1
      streakLoop e.date currentStreak temp2 (max longestStreak temp2) rest
    else
      streakLoop e.date currentStreak 0 longestStreak rest

/-- Function `calculateStreak` from the calculations service for daily
frequency; `today` models `new Date()`, date differences model
`differenceInDays` at day granularity.  Returns `(current, longest)`. -/
def calculateStreak (today : Int) (entries : List StreakEntry) : ℕ × ℕ :=
  match sortByDateDesc entries with
  | [] => (0, 0)
  | e :: rest =>
    if e.completed then
      let cur : ℕ := if today - e.date ≤ 1 then 1 else 0
      streakLoop e.date cur 1 1 rest
    else
      streakLoop e.date 0 0 0 rest

/-! ## Health: weight trend -/

inductive Trend where
  | up
  | down
  | stable
deriving DecidableEq, Repr

/-- A weight entry as the trend analysis reads it: weight and date (integer
day number). -/
structure WeightEntry where
  weight : ℚ
  date : Int
deriving DecidableEq, Repr

/-- Function `getWeightTrend` from the health context: with fewer than two
entries overall, or fewer than two entries within the last `days` days,
the trend is stable with change 0; otherwise the change is the first
filtered entry's weight minus the last filtered entry's weight, classified
stable when its magnitude is below 0.1, and the returned change is the
absolute value. -/
def getWeightTrend (now days : Int) (weightEntries : List WeightEntry) : Trend × ℚ :=
  if weightEntries.length < 2 then (Trend.stable, 0)
  else
    match weightEntries.filter (fun e => decide (now - days ≤ e.date)) with
    | [] => (Trend.stable, 0)
    | [_] => (Trend.stable, 0)
    | e0 :: e1 :: rest =>
      let latestWeight := e0.weight
      let oldestWeight := ((e1 :: rest).getLast (List.cons_ne_nil e1 rest)).weight
      let change := latestWeight - oldestWeight
      let trend :=
        if |change| < 0.1 then Trend.stable
        else if 0 < change then Trend.up
        else Trend.down
      (trend, |change|)

/-! ## Habits: entry upserts -/

/-- A habit as the entry write operations read it. -/
structure Habit where
  id : String
  targetCount : ℕ
deriving DecidableEq, Repr

/-- A stored habit entry (the fields the invariants are about). -/
structure HabitEntry where
  habitId : String
  date : Int
  completed : Bool
  count : ℕ
deriving DecidableEq, Repr

/-- Key match of an entry against a `(habitId, date)` pair, as the source
compares `habit_id` and the day-formatted date. -/
def entryMatches (habitId : String) (d : Int) (e : HabitEntry) : Bool :=
  e.habitId == habitId && e.date == d

/-- Function `markHabitComplete` from the habits context: look the habit
up (`none` models the thrown "Habit not found"), compute
`completed = count >= targetCount`, then upsert — update the matching row
when one exists, otherwise prepend a new entry. -/
def markHabitComplete (habits : List Habit) (habitId : String) (d : Int) (count : ℕ)
    (habitEntries : List HabitEntry) : Option (List HabitEntry) :=
  match habits.find? (fun h => h.id == habitId) with
  | none => none
  | some habit =>
    if habitEntries.any (entryMatches habitId d) then
      some (habitEntries.map (fun e =>
        if entryMatches habitId d e then
          { e with completed := decide (habit.targetCount ≤ count), count := count }
        else e))
    else
      some ({ habitId := habitId, date := d,
              completed := decide (habit.targetCount ≤ count),
              count := count } :: habitEntries)

/-- Function `markHabitIncomplete` from the habits context: reset the
matching row (if any) to count 0 and not completed; it never inserts. -/
def markHabitIncomplete (habitId : String) (d : Int)
    (habitEntries : List HabitEntry) : List HabitEntry :=
  habitEntries.map (fun e =>
    if entryMatches habitId d e then { e with completed := false, count := 0 } else e)

/-- Invariant: every stored entry's completed flag agrees with
`count >= targetCount` of its habit. -/
def completedInv (habits : List Habit) (es : List HabitEntry) : Prop :=
  ∀ e ∈ es, ∀ h : Habit, habits.find? (fun x => x.id == e.habitId) = some h →
    e.completed = decide (h.targetCount ≤ e.count)

/-- Invariant: at most one entry per `(habitId, date)` pair. -/
def uniquePerDay (es : List HabitEntry) : Prop :=
  es.Pairwise (fun a b => ¬(a.habitId = b.habitId ∧ a.date = b.date))

end Trackr

namespace Trackr

/-! ## Theorems: budget progress and body fat -/

/-- C2: for a positive budget amount, `getBudgetProgress` returns
`percentage = min (spent/amount*100) 100` and
`remaining = max (amount - spent) 0`; unconditionally the percentage never
exceeds 100 and the remaining amount is never negative. -/
theorem getBudgetProgress_spec (amount spent : ℚ) :
    (getBudgetProgress amount spent).percentage ≤ 100 ∧
    0 ≤ (getBudgetProgress amount spent).remaining ∧
    (getBudgetProgress amount spent).remaining = max (amount - spent) 0 ∧
    (0 < amount →
      (getBudgetProgress amount spent).percentage = min (spent / amount * 100) 100) := by
  refine ⟨?_, ?_, ?_, ?_⟩
  · simp only [getBudgetProgress]
    exact min_le_right _ _
  · simp only [getBudgetProgress]
    exact le_max_right _ _
  · rfl
  · intro h
    simp only [getBudgetProgress, if_pos h]

/-- Witness for `getBudgetProgress_spec` at amount 200, spent 150. -/
theorem getBudgetProgress_spec_witness :
    (getBudgetProgress 200 150).percentage ≤ 100 ∧
    0 ≤ (getBudgetProgress 200 150).remaining ∧
    (getBudgetProgress 200 150).remaining = max (200 - 150 : ℚ) 0 ∧
    (0 < (200 : ℚ) →
      (getBudgetProgress 200 150).percentage = min (150 / 200 * 100 : ℚ) 100) :=
  getBudgetProgress_spec 200 150

/-- C9: a zero budget amount short-circuits the division: both
`calculateBudgetProgress` and the screen's `getBudgetProgress` return
percentage 0 (and, for non-negative spend, remaining 0) instead of dividing
by zero. -/
theorem budgetProgress_zero_amount (spent : ℚ) :
    calculateBudgetProgress spent 0 = 0 ∧
    (getBudgetProgress 0 spent).percentage = 0 ∧
    (0 ≤ spent → (getBudgetProgress 0 spent).remaining = 0) := by
  refine ⟨rfl, ?_, ?_⟩
  · simp [getBudgetProgress]
  · intro h
    simp only [getBudgetProgress]
    simp only [zero_sub, max_eq_right_iff]
    linarith

/-- Witness for `budgetProgress_zero_amount` at spent 42. -/
theorem budgetProgress_zero_amount_witness :
    calculateBudgetProgress 42 0 = 0 ∧
    (getBudgetProgress 0 42).percentage = 0 ∧
    (0 ≤ (42 : ℚ) → (getBudgetProgress 0 42).remaining = 0) :=
  budgetProgress_zero_amount 42

/-- C7: for every `log10` interpretation, waist, neck, height and unit,
the female branch of `calculateBodyFat` with an absent hip returns the
sentinel value 0 rather than failing. -/
theorem calculateBodyFat_female_no_hip (log10 : ℚ → ℚ)
    (waist neck height : ℚ) (unit : MUnit) :
    calculateBodyFat log10 Gender.female waist neck height none unit = 0 := by
  simp [calculateBodyFat]

/-! ## Theorems: monthly balance -/

/-- Folding addition of amounts over a list equals the initial value plus
the sum of the mapped amounts. -/
theorem foldl_add_amount (l : List Transaction) (s : ℚ) :
    l.foldl (fun sum t => sum + t.amount) s = s + sumAmounts l := by
  induction l generalizing s with
  | nil => simp [sumAmounts]
  | cons t rest ih => simp [sumAmounts, ih, add_assoc]

/-- C3: the monthly balance sums exactly the income (resp. expense)
transactions dated inside `[startOfMonth now, endOfMonth now]`, the balance
is income minus expenses, and a transaction outside the month window
contributes to neither sum. -/
theorem getMonthlyBalance_spec (now : CDate) (ts : List Transaction) :
    (getMonthlyBalance now ts).income =
      sumAmounts (ts.filter (fun t => t.ttype == TType.income && inCurrentMonth now t)) ∧
    (getMonthlyBalance now ts).expenses =
      sumAmounts (ts.filter (fun t => t.ttype == TType.expense && inCurrentMonth now t)) ∧
    (getMonthlyBalance now ts).balance =
      (getMonthlyBalance now ts).income - (getMonthlyBalance now ts).expenses ∧
    ∀ t : Transaction, inCurrentMonth now t = false →
      getMonthlyBalance now (t :: ts) = getMonthlyBalance now ts := by
  refine ⟨?_, ?_, rfl, ?_⟩
  · simp only [getMonthlyBalance, foldl_add_amount, zero_add, List.filter_filter]
  · simp only [getMonthlyBalance, foldl_add_amount, zero_add, List.filter_filter]
  · intro t ht
    simp [getMonthlyBalance, List.filter_cons, ht]

/-- Witness for `getMonthlyBalance_spec`: one May income of 100, one May
expense of 30, and a June transaction that changes nothing. -/
theorem getMonthlyBalance_spec_witness :
    (getMonthlyBalance ⟨2024, 5, 15⟩
        [⟨100, "salary", TType.income, ⟨2024, 5, 2⟩⟩,
         ⟨30, "food", TType.expense, ⟨2024, 5, 20⟩⟩]).balance =
      (getMonthlyBalance ⟨2024, 5, 15⟩
        [⟨100, "salary", TType.income, ⟨2024, 5, 2⟩⟩,
         ⟨30, "food", TType.expense, ⟨2024, 5, 20⟩⟩]).income -
      (getMonthlyBalance ⟨2024, 5, 15⟩
        [⟨100, "salary", TType.income, ⟨2024, 5, 2⟩⟩,
         ⟨30, "food", TType.expense, ⟨2024, 5, 20⟩⟩]).expenses ∧
    getMonthlyBalance ⟨2024, 5, 15⟩
        [⟨40, "food", TType.expense, ⟨2024, 6, 1⟩⟩,
         ⟨100, "salary", TType.income, ⟨2024, 5, 2⟩⟩,
         ⟨30, "food", TType.expense, ⟨2024, 5, 20⟩⟩] =
      getMonthlyBalance ⟨2024, 5, 15⟩
        [⟨100, "salary", TType.income, ⟨2024, 5, 2⟩⟩,
         ⟨30, "food", TType.expense, ⟨2024, 5, 20⟩⟩] :=
  ⟨(getMonthlyBalance_spec ⟨2024, 5, 15⟩ _).2.2.1,
   (getMonthlyBalance_spec ⟨2024, 5, 15⟩ _).2.2.2
     ⟨40, "food", TType.expense, ⟨2024, 6, 1⟩⟩ (by decide)⟩

/-! ## Theorems: category spending -/

/-- Unfolding lemma for `lookupSpend` on a cons cell. -/
theorem lookupSpend_cons (p : String × ℚ) (rest : List (String × ℚ)) (c : String) :
    lookupSpend (p :: rest) c = if p.1 = c then some p.2 else lookupSpend rest c := by
  by_cases hp : p.1 = c
  · simp [lookupSpend, List.find?_cons_of_pos, hp]
  · simp [lookupSpend, List.find?_cons_of_neg, hp]

/-- Updating key `c` and looking up `c` yields the old value (0 when the
key was absent) plus the added amount. -/
theorem lookupSpend_addSpend_same (acc : List (String × ℚ)) (c : String) (a : ℚ) :
    lookupSpend (addSpend acc c a) c = some ((lookupSpend acc c).getD 0 + a) := by
  induction acc with
  | nil => simp [addSpend, lookupSpend]
  | cons p rest ih =>
    by_cases hp : p.1 = c
    · simp [addSpend, hp, lookupSpend_cons]
    · simp [addSpend, hp, lookupSpend_cons, ih]

/-- Updating a different key leaves a lookup unchanged. -/
theorem lookupSpend_addSpend_ne (acc : List (String × ℚ)) (c2 : String) (a : ℚ)
    (c : String) (h : c2 ≠ c) :
    lookupSpend (addSpend acc c2 a) c = lookupSpend acc c := by
  induction acc with
  | nil => simp [addSpend, lookupSpend, h]
  | cons p rest ih =>
    by_cases hp : p.1 = c2
    · have hpc : p.1 ≠ c := by rw [hp]; exact h
      simp [addSpend, hp, lookupSpend_cons, hpc, h]
    · by_cases hc : p.1 = c
      · simp [addSpend, hp, lookupSpend_cons, hc, h.symm]
      · simp [addSpend, hp, lookupSpend_cons, hc, ih]

/-- Characterisation of the category-spend fold: a category ends up present
iff it was already present or some transaction carries it, and its value
grows by the sum of the matching amounts. -/
theorem spendFold_lookup (ts : List Transaction) (acc : List (String × ℚ)) (c : String) :
    lookupSpend (ts.foldl (fun acc t => addSpend acc t.category t.amount) acc) c =
      (if lookupSpend acc c = none ∧ ts.filter (fun t => t.category == c) = []
       then none
       else some ((lookupSpend acc c).getD 0 +
         sumAmounts (ts.filter (fun t => t.category == c)))) := by
  induction ts generalizing acc with
  | nil =>
    cases h : lookupSpend acc c <;> simp [h, sumAmounts]
  | cons t rest ih =>
    by_cases hc : t.category = c
    · have hlook := lookupSpend_addSpend_same acc t.category t.amount
      rw [hc] at hlook
      simp only [List.foldl_cons, ih, hlook, List.filter_cons, hc]
      simp [sumAmounts, add_assoc]
    · have hlook := lookupSpend_addSpend_ne acc t.category t.amount c hc
      simp only [List.foldl_cons, ih, hlook, List.filter_cons]
      simp [hc]

/-- C4 (amended): a category is present in `getCategorySpending` exactly
when some expense transaction with that category falls in the resolved
window, and then it maps to the sum of those amounts; the window for
`month` is the current month, while for `week` the source uses
`[now, now]` (both bounds are the current instant). -/
theorem getCategorySpending_amended (now : CDate) (period : Period)
    (ts : List Transaction) (c : String) :
    lookupSpend (getCategorySpending now period ts) c =
      (if ts.filter (fun t => t.category == c &&
            (t.ttype == TType.expense &&
              (if period = Period.month then startOfMonth now else now).leb t.date &&
              t.date.leb (if period = Period.month then endOfMonth now else now))) = []
       then none
       else some (sumAmounts (ts.filter (fun t => t.category == c &&
            (t.ttype == TType.expense &&
              (if period = Period.month then startOfMonth now else now).leb t.date &&
              t.date.leb (if period = Period.month then endOfMonth now else now)))))) := by
  have h := spendFold_lookup
    (ts.filter (fun t =>
      t.ttype == TType.expense &&
        (if period = Period.month then startOfMonth now else now).leb t.date &&
        t.date.leb (if period = Period.month then endOfMonth now else now)))
    [] c
  simp only [getCategorySpending]
  rw [h]
  simp [lookupSpend, List.filter_filter, Bool.and_assoc]

/-! ## Theorems: dashboard completion percentage -/

/-- Folding addition over a list of rationals equals the initial value plus
the list sum. -/
theorem foldl_add_rat (l : List ℚ) (s : ℚ) :
    l.foldl (fun a b => a + b) s = s + l.sum := by
  induction l generalizing s with
  | nil => simp
  | cons x rest ih => simp [ih, add_assoc]

/-- C5 counterexample: a single habit with target 1 and count 2 makes the
dashboard percentage 200, while the claimed clamped average would be 100 —
the source computes `(count / targetCount) * 100` without `min`. -/
theorem completionPercentage_counterexample :
    completionPercentage [⟨1, 2⟩] = 200 ∧
    claimedCompletionPercentage [⟨1, 2⟩] = 100 ∧
    completionPercentage [⟨1, 2⟩] ≠ claimedCompletionPercentage [⟨1, 2⟩] := by
  refine ⟨?_, ?_, ?_⟩ <;>
    norm_num [completionPercentage, claimedCompletionPercentage, habitProgress]

/-- C5 (amended): the dashboard percentage is the equal-weight average of
the unclamped per-habit values `(count/targetCount)*100` (0 for an empty
list), so a habit whose count exceeds its target contributes more than
100; whenever every habit's count is at most its target, it coincides with
the claimed clamped average. -/
theorem completionPercentage_amended (hs : List TodayHabit) :
    completionPercentage hs =
      (if hs = [] then 0 else (hs.map habitProgress).sum / (hs.length : ℚ)) ∧
    ((∀ h ∈ hs, h.count ≤ h.targetCount) →
      completionPercentage hs = claimedCompletionPercentage hs) := by
  constructor
  · by_cases h : hs = []
    · subst h; simp [completionPercentage]
    · have hlen : 0 < hs.length := List.length_pos.mpr h
      simp [completionPercentage, hlen, h, foldl_add_rat]
  · intro hle
    have hmap : hs.map (fun h => min ((h.count : ℚ) / (h.targetCount : ℚ)) 1 * 100)
        = hs.map habitProgress := by
      apply List.map_congr_left
      intro x hx
      rcases Nat.eq_zero_or_pos x.targetCount with h0 | hpos
      · simp [habitProgress, h0]
      · have ht : (0 : ℚ) < (x.targetCount : ℚ) := by exact_mod_cast hpos
        have hc : (x.count : ℚ) ≤ (x.targetCount : ℚ) := by
          exact_mod_cast hle x hx
        rw [habitProgress, min_eq_left ((div_le_one ht).mpr hc)]
    simp [completionPercentage, claimedCompletionPercentage, hmap]

/-- Witness for `completionPercentage_amended`: with count at most target
the two aggregates agree. -/
theorem completionPercentage_amended_witness :
    completionPercentage [⟨2, 1⟩] = claimedCompletionPercentage [⟨2, 1⟩] :=
  (completionPercentage_amended [⟨2, 1⟩]).2 (by decide)

/-! ## Theorems: streak engine -/

/-- C1: evaluation of `calculateStreak` at the failing input.  With entries
completed on days today, today-1 and today-2 and no earlier entries, the
source returns `current = 1`, not 3: `currentStreak` is assigned only on
the first loop iteration and never incremented afterwards (`longest` is
correctly 3). -/
theorem calculateStreak_failing_eval :
    calculateStreak 100 [⟨100, true⟩, ⟨99, true⟩, ⟨98, true⟩] = (1, 3) := by
  decide

/-- C4 counterexample: with "now" Wednesday 2024-05-15, an expense of 50 in
category food dated Monday 2024-05-13 lies inside the Sunday-start week the
claim describes, yet `getCategorySpending` for period week returns the
empty mapping — the week window the code resolves is `[now, now]`. -/
theorem getCategorySpending_week_counterexample :
    getCategorySpending ⟨2024, 5, 15⟩ Period.week
        [⟨50, "food", TType.expense, ⟨2024, 5, 13⟩⟩] = [] ∧
    lookupSpend (getCategorySpending ⟨2024, 5, 15⟩ Period.week
        [⟨50, "food", TType.expense, ⟨2024, 5, 13⟩⟩]) "food" = none ∧
    specWeekWindowMember ⟨2024, 5, 15⟩ ⟨2024, 5, 13⟩ = true := by
  refine ⟨by decide, by decide, by decide⟩

/-! ## Theorems: weight trend -/

/-- C8: for entries ordered newest-first, fewer than two entries within the
last `days` days yields `(stable, 0)`; with at least two, writing `c` for
the newest in-window weight minus the oldest in-window weight, the trend is
stable when `|c| < 0.1`, up when `c` is positive, down when negative, and
the returned change is `|c|`, which is non-negative. -/
theorem getWeightTrend_spec (now days : Int) (entries : List WeightEntry)
    (hsorted : entries.Sorted (fun a b => b.date ≤ a.date)) :
    ((entries.filter (fun e => decide (now - days ≤ e.date))).length < 2 →
      getWeightTrend now days entries = (Trend.stable, 0)) ∧
    (∀ e0 e1 rest,
      entries.filter (fun e => decide (now - days ≤ e.date)) = e0 :: e1 :: rest →
      getWeightTrend now days entries =
        ((if |e0.weight - ((e1 :: rest).getLast (List.cons_ne_nil e1 rest)).weight| < 0.1
            then Trend.stable
          else if 0 < e0.weight - ((e1 :: rest).getLast (List.cons_ne_nil e1 rest)).weight
            then Trend.up
          else Trend.down),
         |e0.weight - ((e1 :: rest).getLast (List.cons_ne_nil e1 rest)).weight|)) ∧
    0 ≤ (getWeightTrend now days entries).2 := by
  refine ⟨?_, ?_, ?_⟩
  · intro hfew
    unfold getWeightTrend
    by_cases hlen : entries.length < 2
    · simp [hlen]
    · simp only [if_neg hlen]
      cases hrec : entries.filter (fun e => decide (now - days ≤ e.date)) with
      | nil => rfl
      | cons a tail =>
        cases tail with
        | nil => rfl
        | cons b rest =>
          rw [hrec] at hfew
          simp at hfew
          omega
  · intro e0 e1 rest hrec
    have hlen2 : 2 ≤ (entries.filter (fun e => decide (now - days ≤ e.date))).length := by
      rw [hrec, List.length_cons, List.length_cons]
      omega
    have hlen : ¬ entries.length < 2 := by
      have hfl := List.length_filter_le (fun e => decide (now - days ≤ e.date)) entries
      omega
    unfold getWeightTrend
    simp only [if_neg hlen]
    rw [hrec]
  · unfold getWeightTrend
    by_cases hlen : entries.length < 2
    · simp [hlen]
    · simp only [if_neg hlen]
      cases entries.filter (fun e => decide (now - days ≤ e.date)) with
      | nil => simp
      | cons a tail =>
        cases tail with
        | nil => simp
        | cons b rest => simp [abs_nonneg]

/-- Witness for `getWeightTrend_spec`: two entries five days apart with a
one-unit gain give an upward trend with change 1. -/
theorem getWeightTrend_spec_witness :
    getWeightTrend 100 30 [⟨81, 100⟩, ⟨80, 95⟩] = (Trend.up, 1) := by
  have h := (getWeightTrend_spec 100 30 [⟨81, 100⟩, ⟨80, 95⟩] (by decide)).2.1
    ⟨81, 100⟩ ⟨80, 95⟩ [] (by decide)
  rw [h]
  norm_num

/-! ## Theorems: habit entry upserts -/

/-- Mapping a key-preserving function over the entries preserves the
at-most-one-entry-per-day invariant. -/
theorem uniquePerDay_map (es : List HabitEntry) (f : HabitEntry → HabitEntry)
    (hf : ∀ e, (f e).habitId = e.habitId ∧ (f e).date = e.date)
    (h : uniquePerDay es) : uniquePerDay (es.map f) := by
  rw [uniquePerDay, List.pairwise_map]
  refine h.imp ?_
  intro a b hab hcon
  exact hab ⟨by rw [← (hf a).1, ← (hf b).1]; exact hcon.1,
             by rw [← (hf a).2, ← (hf b).2]; exact hcon.2⟩

/-- Key preservation of the update applied by the habit-entry writes. -/
theorem entryUpdate_preserves_key (habitId : String) (d : Int)
    (g : HabitEntry → HabitEntry)
    (hg : ∀ e, (g e).habitId = e.habitId ∧ (g e).date = e.date) (e : HabitEntry) :
    ((if entryMatches habitId d e then g e else e).habitId = e.habitId ∧
     (if entryMatches habitId d e then g e else e).date = e.date) := by
  by_cases hm : entryMatches habitId d e
  · simp [hm, hg e]
  · simp [hm]

/-- C6: both habit-entry write operations preserve the invariants.  When a
row for the `(habitId, date)` pair exists, `markHabitComplete` updates it
in place (same number of rows); when none exists it inserts exactly one;
in both cases every stored row keeps `completed = (count >= targetCount)`
and there is still at most one row per `(habitId, date)` pair.
`markHabitIncomplete` also preserves both invariants and never changes the
number of rows. -/
theorem markHabit_preserves_invariants (habits : List Habit)
    (hwf : ∀ h ∈ habits, 1 ≤ h.targetCount)
    (es : List HabitEntry) (hinv : completedInv habits es) (huniq : uniquePerDay es) :
    (∀ (habitId : String) (d : Int) (count : ℕ) (es2 : List HabitEntry),
      markHabitComplete habits habitId d count es = some es2 →
      completedInv habits es2 ∧ uniquePerDay es2 ∧
      (es.any (entryMatches habitId d) = true → es2.length = es.length) ∧
      (es.any (entryMatches habitId d) = false → es2.length = es.length + 1)) ∧
    (∀ (habitId : String) (d : Int),
      completedInv habits (markHabitIncomplete habitId d es) ∧
      uniquePerDay (markHabitIncomplete habitId d es) ∧
      (markHabitIncomplete habitId d es).length = es.length) := by
  constructor
  · intro habitId d count es2 hsome
    unfold markHabitComplete at hsome
    split at hsome
    · exact Option.noConfusion hsome
    · rename_i habit hfind
      by_cases hany : es.any (entryMatches habitId d) = true
      · rw [if_pos hany] at hsome
        injection hsome with hes2
        subst hes2
        refine ⟨?_, ?_, ?_, ?_⟩
        · intro e2 he2 h hfind2
          rcases List.mem_map.mp he2 with ⟨e, he, hfe⟩
          by_cases hm : entryMatches habitId d e
          · rw [if_pos hm] at hfe
            have heid : e.habitId = habitId := by
              have hm2 := hm
              unfold entryMatches at hm2
              simp at hm2
              exact hm2.1
            have h2id : e2.habitId = habitId := by rw [← hfe]; exact heid
            rw [h2id, hfind] at hfind2
            have hh : h = habit := by injection hfind2 with hh; exact hh.symm
            rw [hh, ← hfe]
          · rw [if_neg hm] at hfe
            rw [← hfe]
            exact hinv e he h (by rw [hfe]; exact hfind2)
        · exact uniquePerDay_map es _
            (fun e => entryUpdate_preserves_key habitId d
              (fun x => { x with completed := decide (habit.targetCount ≤ count),
                                 count := count })
              (fun x => ⟨rfl, rfl⟩) e) huniq
        · intro _
          simp
        · intro hcon
          rw [hany] at hcon
          cases hcon
      · rw [if_neg hany] at hsome
        have hnone : es.any (entryMatches habitId d) = false :=
          Bool.eq_false_iff.mpr hany
        injection hsome with hes2
        subst hes2
        refine ⟨?_, ?_, ?_, ?_⟩
        · intro e2 he2 h hfind2
          rcases List.mem_cons.mp he2 with he2 | he2
          · subst he2
            have hfind3 : habits.find? (fun x => x.id == habitId) = some h := hfind2
            rw [hfind] at hfind3
            have hh : h = habit := by injection hfind3 with hh; exact hh.symm
            rw [hh]
          · exact hinv e2 he2 h hfind2
        · refine List.Pairwise.cons ?_ huniq
          intro b hb hcon
          have hall := List.any_eq_false.mp hnone
          apply hall b hb
          have h1 : habitId = b.habitId := hcon.1
          have h2 : d = b.date := hcon.2
          unfold entryMatches
          rw [← h1, ← h2]
          simp
        · intro hcon
          rw [hnone] at hcon
          cases hcon
        · intro _
          simp
  · intro habitId d
    refine ⟨?_, ?_, ?_⟩
    · intro e2 he2 h hfind2
      unfold markHabitIncomplete at he2
      rcases List.mem_map.mp he2 with ⟨e, he, hfe⟩
      by_cases hm : entryMatches habitId d e
      · rw [if_pos hm] at hfe
        have hmem : h ∈ habits := List.mem_of_find?_eq_some hfind2
        have h1 : 1 ≤ h.targetCount := hwf h hmem
        rw [← hfe]
        simp
        omega
      · rw [if_neg hm] at hfe
        rw [← hfe]
        exact hinv e he h (by rw [hfe]; exact hfind2)
    · exact uniquePerDay_map es _
        (fun e => entryUpdate_preserves_key habitId d
          (fun x => { x with completed := false, count := 0 })
          (fun x => ⟨rfl, rfl⟩) e) huniq
    · unfold markHabitIncomplete
      simp

/-- Witness for `markHabit_preserves_invariants`: starting from no entries,
completing habit h1 (target 2) with count 2 yields a collection that still
satisfies both invariants. -/
theorem markHabit_preserves_invariants_witness :
    completedInv [⟨"h1", 2⟩] [⟨"h1", 0, true, 2⟩] ∧
    uniquePerDay [⟨"h1", 0, true, 2⟩] := by
  have h := (markHabit_preserves_invariants [⟨"h1", 2⟩] (by decide) []
      (by intro e he; cases he) (List.Pairwise.nil)).1
    "h1" 0 2 [⟨"h1", 0, true, 2⟩] (by decide)
  exact ⟨h.1, h.2.1⟩

/-- C10: `markHabitIncomplete` never inserts: when no entry matches the
`(habitId, date)` pair it leaves the collection completely unchanged, it
always preserves the number of entries, and every entry of another habit
or another day is left exactly as it was, at its position. -/
theorem markHabitIncomplete_frame (habitId : String) (d : Int) (es : List HabitEntry) :
    ((∀ e ∈ es, entryMatches habitId d e = false) →
      markHabitIncomplete habitId d es = es) ∧
    (markHabitIncomplete habitId d es).length = es.length ∧
    (∀ (i : ℕ) (e : HabitEntry), es[i]? = some e → entryMatches habitId d e = false →
      (markHabitIncomplete habitId d es)[i]? = some e) := by
  refine ⟨?_, ?_, ?_⟩
  · intro hnone
    unfold markHabitIncomplete
    have hid : ∀ e ∈ es,
        (if entryMatches habitId d e then
          { e with completed := false, count := 0 } else e) = id e := by
      intro e he
      rw [hnone e he]
      simp
    rw [List.map_congr_left hid, List.map_id]
  · unfold markHabitIncomplete
    simp
  · intro i e hsome hfalse
    unfold markHabitIncomplete
    rw [List.getElem?_map, hsome]
    simp [hfalse]

/-- Witness for `markHabitIncomplete_frame`: an entry of a different habit
is untouched. -/
theorem markHabitIncomplete_frame_witness :
    markHabitIncomplete "h1" 0 [⟨"h2", 0, true, 1⟩] = [⟨"h2", 0, true, 1⟩] :=
  (markHabitIncomplete_frame "h1" 0 [⟨"h2", 0, true, 1⟩]).1 (by decide)

end Trackr
